import Mathlib

/-!
Verification of the build-orchestration core of the `bay` container CLI
(`bay/plugins/build.py`), shallowly embedded in Lean.  Containers are
identified by natural numbers; the container catalog, the docker host and
the pull/build outcomes are explicit parameters.  Code of the repository
that is outside the excerpt (`bay/utils/sorting.py`'s `dependency_sort`,
`bay/cli/colors.py`'s `remove_ansi`) is modelled from the specification,
as marked in the corresponding doc comments.
-/

namespace Bay

/-- Modelled from the spec: `dependency_sort` from `bay/utils/sorting.py`, which is
not part of the source excerpt.  Spec 4.1: a topological sort of an arbitrary node
set given an edge-producing function, where `edges n` lists the nodes that must
precede `n`.  The result contains every input node exactly once, each node after
all nodes it transitively depends on; dependency expansion pulls in reachable
nodes not present in the input; ties are broken by stable insertion order of the
input; a dependency cycle is an error (`CycleError`, modelled as `none`, reached
here by fuel exhaustion).  The worklist holds the nodes still to visit; `acc` is
the output built so far. -/
def dsVisitMany (edges : Nat → List Nat) : Nat → List Nat → List Nat → Option (List Nat)
  | 0, _, _ => none
  | _ + 1, [], acc => some acc
  | fuel + 1, n :: rest, acc =>
    if n ∈ acc then dsVisitMany edges fuel rest acc
    else
      match dsVisitMany edges fuel (edges n) acc with
      | none => none
      | some acc2 => dsVisitMany edges fuel rest (acc2 ++ [n])

/-- Modelled from the spec: entry point of the topological sort (spec 4.1). -/
def dependency_sort (fuel : Nat) (nodes : List Nat) (edges : Nat → List Nat) :
    Option (List Nat) :=
  dsVisitMany edges fuel nodes []

/-- The container catalog and per-container data consumed by `build.py`:
the catalog order (`app.containers`), the per-container options `in_profile`,
the `system` flag, the values of the `named_volumes` mapping, the optional
`provides-volume` entry of `extra_data`, the `build_parent` edge and the
runtime `dependencies` edge. -/
structure App where
  containers : List Nat
  inProfile : Nat → Bool
  system : Nat → Bool
  namedVolumes : Nat → List String
  providesVolume : Nat → Option String
  buildParent : Nat → Option Nat
  dependencies : Nat → List Nat

/-- Accumulating loop of `_get_providers` (build.py lines 20-26): a dict from
provided volume name to providing container, later catalog entries overwriting
earlier ones. -/
def providersFold (app : App) (m : String → Option Nat) : List Nat → String → Option Nat
  | [] => m
  | c :: rest =>
    providersFold app
      (match app.providesVolume c with
       | some v => fun w => if w = v then some c else m w
       | none => m) rest

/-- `_get_providers(app)` (build.py lines 20-26). -/
def get_providers (app : App) : String → Option Nat :=
  providersFold app (fun _ => none) app.containers

/-- Observable events of one run of the `build` command.  `visitAncestor`
records each iteration of the inner ancestor loop (build.py line 218). -/
inductive Ev
  | pullAttempt (c : Nat) (ok : Bool)
  | visitAncestor (c : Nat)
  | preGroupBuild
  | postGroupBuild
  | buildImage (c : Nat)
  | echo (s : String)
  | echoErr (s : String)
  | exitCode (n : Nat)
  deriving DecidableEq, Repr

/-- One command-line argument of `build`: the profile sentinel
(`ContainerType.Profile`) or an explicitly named container. -/
inductive BuildArg
  | profile
  | named (c : Nat)
  deriving DecidableEq, Repr

/-- Profile-sentinel expansion (build.py lines 170-177): walk the catalog and,
for every container with `in_profile` or `system` set, append it followed by
the providers of its named volumes. -/
def profileExpand (app : App) : List Nat → List Nat
  | [] => []
  | con :: rest =>
    if app.inProfile con || app.system con then
      (con :: (app.namedVolumes con).filterMap (get_providers app)) ++ profileExpand app rest
    else profileExpand app rest

/-- Containers appended to `containers_to_pull` by the request-expansion loop
(build.py lines 168-177): each occurrence of the profile sentinel contributes
the profile expansion. -/
def requestToPull (app : App) : List BuildArg → List Nat
  | [] => []
  | .profile :: rest => profileExpand app app.containers ++ requestToPull app rest
  | .named _ :: rest => requestToPull app rest

/-- Containers appended to `containers_to_build` by the request-expansion loop
(build.py lines 178-182): each explicitly named container followed by the
providers of its named volumes. -/
def requestToBuild (app : App) : List BuildArg → List Nat
  | [] => []
  | .profile :: rest => requestToBuild app rest
  | .named c :: rest =>
    (c :: (app.namedVolumes c).filterMap (get_providers app)) ++ requestToBuild app rest

/-- State threaded through the pull phase (build.py lines 156-204):
`pulled_containers`, `failed_pulls`, `containers_to_build` and the trace. -/
structure PullState where
  pulled : List Nat
  failed : List Nat
  toBuild : List Nat
  events : List Ev
  deriving Repr

/-- One pull attempt of the pull phase (build.py lines 191-204): on failure the
container joins `failed_pulls` and is appended to `containers_to_build`; on
success it joins `pulled_containers`. -/
def pullStep (pullOk : Nat → Bool) (st : PullState) (c : Nat) : PullState :=
  if pullOk c then
    { st with pulled := st.pulled ++ [c], events := st.events ++ [.pullAttempt c true] }
  else
    { st with failed := st.failed ++ [c], toBuild := st.toBuild ++ [c],
              events := st.events ++ [.pullAttempt c false] }

/-- State threaded through the ancestor-resolution phase (build.py lines
206-240): the pull outcome sets, `ancestors_to_build` and the trace. -/
structure AncState where
  pulled : List Nat
  failed : List Nat
  atb : List Nat
  events : List Ev
  deriving Repr

/-- Build-parent edge function passed to the ancestry sorts
(build.py lines 217 and 243). -/
def parentEdges (app : App) (x : Nat) : List Nat :=
  (app.buildParent x).toList

/-- The inner ancestor loop (build.py lines 218-240), iterating the reversed
ancestry.  An ancestor that already failed a pull is requeued without a new
attempt; one already pulled ends the walk; otherwise a pull is attempted:
success records it pulled and ends the walk, failure records it failed and
prepends it to `ancestors_to_build`. -/
def ancestorWalk (pullOk : Nat → Bool) : AncState → List Nat → AncState
  | st, [] => st
  | st, a :: rest =>
    if a ∈ st.failed then
      ancestorWalk pullOk
        ⟨st.pulled, st.failed, a :: st.atb, st.events ++ [.visitAncestor a]⟩ rest
    else if a ∈ st.pulled then
      ⟨st.pulled, st.failed, st.atb, st.events ++ [.visitAncestor a]⟩
    else if pullOk a then
      ⟨st.pulled ++ [a], st.failed, st.atb,
       st.events ++ [.visitAncestor a, .pullAttempt a true]⟩
    else
      ancestorWalk pullOk
        ⟨st.pulled, st.failed ++ [a], a :: st.atb,
         st.events ++ [.visitAncestor a, .pullAttempt a false]⟩ rest

/-- Fuel handed to the spec-modelled sort: a generous bound on the recursion
steps needed for the acyclic instances arising from a finite catalog. -/
def appFuel (app : App) (nodes : List Nat) : Nat :=
  (app.containers.length + nodes.length + 1) * (app.containers.length + nodes.length + 1)

/-- The outer ancestor-resolution loop (build.py lines 209-240).  Each container
to build is first appended to `ancestors_to_build`; with the recursive flag set,
the loop then walks `reversed(dependency_sort(containers_to_build, build_parent)[:-1])`.
Note that build.py line 216 sorts the whole `containers_to_build` list, so every
iteration walks the same list regardless of the current container. -/
def ancestorPhase (app : App) (pullOk : Nat → Bool) (recursive : Bool) (ctb : List Nat) :
    AncState → List Nat → Option AncState
  | st, [] => some st
  | st, c :: rest =>
    match recursive with
    | true =>
      match dependency_sort (appFuel app ctb) ctb (parentEdges app) with
      | none => none
      | some sorted =>
        ancestorPhase app pullOk recursive ctb
          (ancestorWalk pullOk ⟨st.pulled, st.failed, st.atb ++ [c], st.events⟩
            sorted.dropLast.reverse) rest
    | false =>
      ancestorPhase app pullOk recursive ctb
        ⟨st.pulled, st.failed, st.atb ++ [c], st.events⟩ rest

/-- Last `n` elements of a list; python `l[-n:]`. -/
def lastN (n : Nat) (l : List α) : List α := l.drop (l.length - n)

/-- The log-tailing loop of the failure handler (build.py lines 276-279):
`lines = lines[-14:] + [line]` folded over the lines of the log file. -/
def logTail (file : List String) : List String :=
  file.foldl (fun lines line => lastN 14 lines ++ [line]) []

/-- Python `str.rstrip()`: remove trailing whitespace. -/
def pyRstrip (s : String) : String :=
  ⟨(s.data.reverse.dropWhile Char.isWhitespace).reverse⟩

/-- Modelled from the spec: worker of `remove_ansi` from `bay/cli/colors.py`,
which is not part of the source excerpt.  Spec 7: the log tail is shown "with
any color-control sequences stripped"; each ESC-initiated color-control
sequence is dropped up to and including its terminating `m`. -/
def removeAnsiAux : Bool → List Char → List Char
  | _, [] => []
  | true, c :: rest => if c = 'm' then removeAnsiAux false rest else removeAnsiAux true rest
  | false, c :: rest =>
    if c = '\x1b' then removeAnsiAux true rest else c :: removeAnsiAux false rest

/-- Modelled from the spec: `remove_ansi` strips ANSI color-control sequences. -/
def removeAnsi (s : String) : String := ⟨removeAnsiAux false s.data⟩

/-- Output produced by the `BuildFailureError` handler (build.py lines 273-283):
the header, the log tail with ANSI codes stripped and trailing whitespace
removed, the log path on stderr, then exit code 1. -/
def buildFailureEvents (logLines : List String) (logPath : String) : List Ev :=
  Ev.echo "Build failed! Last 15 lines of log:" ::
    (logTail logLines).map (fun l => Ev.echo ("  " ++ pyRstrip (removeAnsi l)))
    ++ [Ev.echoErr ("See full build log at " ++ logPath), Ev.exitCode 1]

/-- The build-execution loop (build.py lines 261-285): builds run sequentially;
the first `BuildFailureError` aborts the remaining queue; `POST_GROUP_BUILD`
fires only after every queued build succeeded. -/
def execLoop (buildOk : Nat → Bool) (logLines : List String) (logPath : String) :
    List Nat → List Ev
  | [] => [Ev.postGroupBuild]
  | c :: rest =>
    Ev.buildImage c ::
      (if buildOk c then execLoop buildOk logLines logPath rest
       else buildFailureEvents logLines logPath)

/-- The execute phase (build.py lines 259-285): `PRE_GROUP_BUILD`, then the
sequential build loop. -/
def executePhase (buildOk : Nat → Bool) (logLines : List String) (logPath : String)
    (queue : List Nat) : List Ev :=
  Ev.preGroupBuild :: execLoop buildOk logLines logPath queue

/-- Resolution artifacts and observable trace of one run of the `build` command. -/
structure RunResult where
  pullCandidates : List Nat
  ctb : List Nat
  pulled : List Nat
  failed : List Nat
  atb : List Nat
  finalOrder : List Nat
  resolveEvents : List Ev
  execEvents : List Ev
  deriving Repr

/-- All events of a run: the resolution trace (pull phase and ancestor walks)
followed by the execution trace. -/
def runEvents (r : RunResult) : List Ev := r.resolveEvents ++ r.execEvents

/-- The pull phase (build.py lines 191-204) as a fold of `pullStep` over the
sorted pull candidates, starting from empty outcome sets and the
`containers_to_build` list produced by request expansion. -/
def pullPhase (pullOk : Nat → Bool) (tb0 : List Nat) (candidates : List Nat) : PullState :=
  candidates.foldl (pullStep pullOk) ⟨[], [], tb0, []⟩

/-- The ancestor-resolution phase (build.py lines 206-240) started from the
pull-phase state, with an empty `ancestors_to_build`. -/
def resolvePhase (app : App) (pullOk : Nat → Bool) (recursive : Bool) (pst : PullState) :
    Option AncState :=
  ancestorPhase app pullOk recursive pst.toBuild
    ⟨pst.pulled, pst.failed, [], pst.events⟩ pst.toBuild

/-- The final ordering and execution (build.py lines 242-285): sort
`ancestors_to_build` over the build-parent relation, filter the result back to
the containers that were queued, then run the execute phase on that order. -/
def finalize (app : App) (buildOk : Nat → Bool) (logLines : List String) (logPath : String)
    (candidates : List Nat) (pst : PullState) (ast : AncState) : Option RunResult :=
  match dependency_sort (appFuel app ast.atb) ast.atb (parentEdges app) with
  | none => none
  | some sorted =>
    some { pullCandidates := candidates, ctb := pst.toBuild,
           pulled := ast.pulled, failed := ast.failed, atb := ast.atb,
           finalOrder := sorted.filter (· ∈ ast.atb),
           resolveEvents := ast.events,
           execEvents := executePhase buildOk logLines logPath (sorted.filter (· ∈ ast.atb)) }

/-- The `build` command (build.py lines 151-295): expand the request, sort the
pull candidates over runtime dependencies, run the pull phase, resolve
ancestors, sort `ancestors_to_build` over build parents and filter it back to
the queued containers, then execute the builds.  `pullOk` and `buildOk` are the
outcomes of the external image puller and builder; `none` models a `CycleError`
escaping from the sort. -/
def build (app : App) (pullOk buildOk : Nat → Bool) (logLines : List String)
    (logPath : String) (request : List BuildArg) (recursive : Bool) : Option RunResult :=
  match dependency_sort (appFuel app (requestToPull app request)) (requestToPull app request)
      app.dependencies with
  | none => none
  | some candidates =>
    match resolvePhase app pullOk recursive
        (pullPhase pullOk (requestToBuild app request) candidates) with
    | none => none
    | some ast =>
      finalize app buildOk logLines logPath candidates
        (pullPhase pullOk (requestToBuild app request) candidates) ast

/-- `BuildPlugin.pre_start` (build.py lines 43-74): veto starting a
volume-providing container; otherwise, for every named volume of the instance
that has a provider in the catalog and does not exist on the host
(`inspect_volume` raising `NotFound` is modelled as `hostVolumes v = none`),
build the provider's image.  The returned list holds the providers built, in
mount order. -/
def pre_start (app : App) (hostVolumes : String → Option Unit) (c : Nat) :
    Except String (List Nat) :=
  if (app.providesVolume c).isSome then
    Except.error ("You cannot run a volume-providing container " ++ toString c)
  else
    Except.ok ((app.namedVolumes c).filterMap (fun v =>
      match get_providers app v with
      | some p =>
        match hostVolumes v with
        | none => some p
        | some _ => none
      | none => none))

/-- Labels of a docker volume; the `Labels` field of `inspect_volume` may itself
be null (build.py line 93: `volume_details.get("Labels") or {}`). -/
structure VolumeInfo where
  labels : Option (List (String × String))
  deriving DecidableEq, Repr

/-- The slice of docker-host state read and written by `BuildPlugin.post_build`:
image ids by image name (`inspect_image(...)["Id"]`), volumes by name (`none`
models `inspect_volume` raising `NotFound`), and the names of the running
instances mounting each volume (the formation introspection). -/
structure DockerHost where
  imageId : String → String
  volumes : String → Option VolumeInfo
  instancesUsing : String → List String

/-- Container descriptor as consumed by `post_build`: its image name and the
optional `provides-volume` entry of its `extra_data`. -/
structure BuiltContainer where
  imageName : String
  providesVolume : Option String
  deriving DecidableEq, Repr

/-- Side effects performed by `post_build` against the host. -/
inductive VolEv
  | stopInstance (n : String)
  | removeInstance (n : String)
  | gcContainers
  | removeVolume (v : String)
  | createVolume (v id : String)
  | populateVolume (v image : String)
  deriving DecidableEq, Repr

/-- `should_extract_volume` (build.py lines 86-94): extract iff the container
provides a volume and that volume is missing or its `build_id` label differs
from the built image's id. -/
def shouldExtractVolume (host : DockerHost) (imgId : String) : Option String → Bool
  | none => false
  | some v =>
    match host.volumes v with
    | none => true
    | some info => !(((info.labels.getD []).lookup "build_id") == some imgId)

/-- Host state after the provisioning sequence of `post_build` re-provisions
volume `v`: the volume exists, labelled `build_id = imgId` (build.py line
122), and no instance mounts it any more (build.py lines 100-110). -/
def provisionedHost (host : DockerHost) (v imgId : String) : DockerHost :=
  { host with
    volumes := fun w => if w = v then some ⟨some [("build_id", imgId)]⟩ else host.volumes w,
    instancesUsing := fun w => if w = v then [] else host.instancesUsing w }

/-- `BuildPlugin.post_build` (build.py lines 76-140): when the freshly built
container provides a volume whose `build_id` label does not match the image id,
stop and remove the instances mounting it, garbage-collect stopped containers,
delete the volume (tolerating `NotFound`), recreate it labelled with the new
image id and run the image once in the foreground to repopulate it; otherwise
do nothing.  Returns the new host state and the performed side effects. -/
def post_build (host : DockerHost) (c : BuiltContainer) : DockerHost × List VolEv :=
  let imgId := host.imageId c.imageName
  match c.providesVolume with
  | none => (host, [])
  | some v =>
    if shouldExtractVolume host imgId (some v) then
      let insts := host.instancesUsing v
      let stopEvents :=
        if insts.isEmpty then []
        else insts.map VolEv.stopInstance ++ insts.map VolEv.removeInstance
      let removeEvents :=
        match host.volumes v with
        | some _ => [VolEv.removeVolume v]
        | none => []
      (provisionedHost host v imgId,
       stopEvents ++ VolEv.gcContainers :: removeEvents
         ++ [VolEv.createVolume v imgId, VolEv.populateVolume v c.imageName])
    else (host, [])

/-! ### Concrete catalogs used as inputs of the claims -/

/-- A three-container build-parent chain: `0` (= A) is the build parent of
`1` (= B), which is the build parent of `2` (= C); no volumes, no runtime
dependencies (spec 8, the A to B to C example). -/
def appABC : App where
  containers := [0, 1, 2]
  inProfile := fun _ => false
  system := fun _ => false
  namedVolumes := fun _ => []
  providesVolume := fun _ => none
  buildParent := fun c => if c = 1 then some 0 else if c = 2 then some 1 else none
  dependencies := fun _ => []

/-- Catalog for the ancestor-walk bug input: `0` (= X) has no build parent,
`2` (= Y) has build parent `1` (= P); no volumes, no runtime dependencies. -/
def appXPY : App where
  containers := [0, 1, 2]
  inProfile := fun _ => false
  system := fun _ => false
  namedVolumes := fun _ => []
  providesVolume := fun _ => none
  buildParent := fun c => if c = 2 then some 1 else none
  dependencies := fun _ => []

/-- A one-container catalog: container `0`, no parents, volumes or
dependencies. -/
def appSingle : App where
  containers := [0]
  inProfile := fun _ => false
  system := fun _ => false
  namedVolumes := fun _ => []
  providesVolume := fun _ => none
  buildParent := fun _ => none
  dependencies := fun _ => []

/-- Catalog for the parent-also-requested input: `0` is the build parent of
`1`, and both are explicitly requested. -/
def appParentChild : App where
  containers := [0, 1]
  inProfile := fun _ => false
  system := fun _ => false
  namedVolumes := fun _ => []
  providesVolume := fun _ => none
  buildParent := fun c => if c = 1 then some 0 else none
  dependencies := fun _ => []

/-- Catalog for the shared-provider input: containers `10` and `11` are in the
profile and both mount the named volume `v`, whose provider is container `20`
(not in profile, not system). -/
def appShared : App where
  containers := [10, 11, 20]
  inProfile := fun c => c = 10 || c = 11
  system := fun _ => false
  namedVolumes := fun c => if c = 10 || c = 11 then ["v"] else []
  providesVolume := fun c => if c = 20 then some "v" else none
  buildParent := fun _ => none
  dependencies := fun _ => []

/-- A default, empty run result (used only to name concrete runs totally). -/
def emptyRun : RunResult :=
  ⟨[], [], [], [], [], [], [], []⟩

/-- A concrete profile-sentinel run over `appShared` with every pull failing,
used to instantiate the general theorems about `build`. -/
def runShared : RunResult :=
  (build appShared (fun _ => false) (fun _ => true) [] "log" [BuildArg.profile] true).getD
    emptyRun

/-- Invariant of the pull phase: every container recorded pulled has a
successful pull outcome, every container recorded failed has a failing pull
outcome and a failed pull attempt in the trace, and every container queued to
build was queued by request expansion or failed its pull. -/
def PullInv (pullOk : Nat → Bool) (tb0 : List Nat) (st : PullState) : Prop :=
  (∀ x ∈ st.pulled, pullOk x = true) ∧
  (∀ x ∈ st.failed, pullOk x = false ∧ Ev.pullAttempt x false ∈ st.events) ∧
  (∀ x ∈ st.toBuild, x ∈ tb0 ∨ x ∈ st.failed)

/-- Invariant of the ancestor-resolution phase: pull outcomes agree with the
oracle, failed containers carry a failed pull attempt in the trace, and every
member of `ancestors_to_build` is a container queued to build or a failed
pull. -/
def AncInv (pullOk : Nat → Bool) (ctb : List Nat) (st : AncState) : Prop :=
  (∀ x ∈ st.pulled, pullOk x = true) ∧
  (∀ x ∈ st.failed, pullOk x = false ∧ Ev.pullAttempt x false ∈ st.events) ∧
  (∀ x ∈ st.atb, x ∈ ctb ∨ x ∈ st.failed)

/-! ### Claims settled on concrete inputs -/

/-- Claim C1, evaluation of the code at the failing input.  With containers
`X = 0` (no build parent) and `Y = 2` (build parent `P = 1`) both explicitly
requested, recursive set and every pull failing, the ancestor-resolution walk
visits `X` itself as an "ancestor" and attempts to pull it — even though `X`
has no build parent at all, so its own proper ancestor chain is empty.  The
walk of build.py line 216 sorts the whole `containers_to_build` list rather
than the current container's chain, contradicting the claim (and the code's
own comment on lines 214-215). -/
theorem ancestor_walk_visits_noancestor_container :
    (build appXPY (fun _ => false) (fun _ => true) [] "log"
        [BuildArg.named 0, BuildArg.named 2] true).map
      (fun r => decide (Ev.visitAncestor 0 ∈ r.resolveEvents ∧
        Ev.pullAttempt 0 false ∈ r.resolveEvents)) = some true ∧
    appXPY.buildParent 0 = none := by
  constructor
  · decide
  · rfl

/-- Claim C2: in the chain `A = 0` → `B = 1` → `C = 2`, requesting a build of
`C` with the recursive flag set and every pull attempt failing yields the
final build order `[A, B, C]`. -/
theorem chain_all_pulls_fail_build_order :
    (build appABC (fun _ => false) (fun _ => true) [] "log" [BuildArg.named 2] true).map
      RunResult.finalOrder = some [0, 1, 2] := by
  decide

/-- Claim C3, counterexample to the claim as stated: with `0` the build parent
of `1`, both explicitly requested and `0`'s pull succeeding during ancestor
resolution, container `0` is recorded as pulled in this run and still appears
in the executed build list (it was queued for building before its pull was
attempted), refuting "no container whose pull succeeded in this run appears in
the executed build list". -/
theorem pulled_container_in_final_order :
    (build appParentChild (fun c => c == 0) (fun _ => true) [] "log"
        [BuildArg.named 0, BuildArg.named 1] true).map
      (fun r => decide (0 ∈ r.pulled ∧ 0 ∈ r.finalOrder)) = some true := by
  decide

/-- Claim C3 as amended: in the chain `A = 0` → `B = 1` → `C = 2` with `B`'s
pull succeeding during ancestor resolution, the final build order is exactly
`[C]` (with `B` the only pulled container), and the final ordering step
filters the topologically sorted union back to the queued containers
(`ancestors_to_build`), so the sort's ancestor-chain expansion reintroduces no
container — a successfully pulled container is excluded exactly when it was
never queued for building. -/
theorem chain_parent_pull_succeeds_build_order :
    (build appABC (fun c => c == 1) (fun _ => true) [] "log" [BuildArg.named 2] true).map
      (fun r => (r.finalOrder, r.pulled, decide (∀ c ∈ r.finalOrder, c ∈ r.atb))) =
      some ([2], [1], true) := by
  decide

/-- Claim C4, counterexample to the claim as stated: container `0` is
explicitly named in the request, is never the subject of any pull attempt, and
is nevertheless built — explicitly named containers enter
`containers_to_build` directly (build.py line 179) and only profile-expanded
containers enter `containers_to_pull`. -/
theorem named_container_built_without_pull :
    (build appSingle (fun _ => false) (fun _ => true) [] "log" [BuildArg.named 0] true).map
      (fun r => decide (Ev.buildImage 0 ∈ runEvents r ∧
        Ev.pullAttempt 0 true ∉ runEvents r ∧ Ev.pullAttempt 0 false ∉ runEvents r)) =
      some true := by
  decide

/-- Claim C5, counterexample to the claim as stated: expanding the profile
sentinel over a catalog where the in-profile containers `10` and `11` both
mount the named volume `v` provided by container `20` yields the list
`[10, 20, 11, 20]`, in which the shared provider `20` appears twice — the
expansion loop (build.py lines 168-177) appends a provider once per
referencing container and deduplication only happens later, in the
dependency sort of the pull phase. -/
theorem profile_expansion_duplicate_provider :
    requestToPull appShared [BuildArg.profile] = [10, 20, 11, 20] ∧
    (requestToPull appShared [BuildArg.profile]).count 20 = 2 := by
  decide

/-! ### The `PRE_START` hook -/

/-- Any entry of the providers map points back at a container whose
`provides-volume` is exactly the key: an invariant of the `_get_providers`
accumulation. -/
theorem providersFold_spec (app : App) (l : List Nat) (m : String → Option Nat)
    (hm : ∀ v p, m v = some p → app.providesVolume p = some v) :
    ∀ v p, providersFold app m l v = some p → app.providesVolume p = some v := by
  induction l generalizing m with
  | nil => exact hm
  | cons c rest ih =>
    intro v p h
    rw [providersFold] at h
    refine ih _ ?_ v p h
    intro w q hw
    cases hc : app.providesVolume c with
    | none =>
      simp only [hc] at hw
      exact hm w q hw
    | some v0 =>
      simp only [hc] at hw
      by_cases hwv : w = v0
      · subst hwv
        rw [if_pos rfl] at hw
        injection hw with hw
        subst hw
        exact hc
      · rw [if_neg hwv] at hw
        exact hm w q hw

/-- A volume's provider declares exactly that volume in `provides-volume`. -/
theorem get_providers_spec (app : App) (v : String) (p : Nat)
    (h : get_providers app v = some p) : app.providesVolume p = some v :=
  providersFold_spec app app.containers (fun _ => none) (fun _ _ hx => by cases hx) v p h

/-- Claim C9: the `PRE_START` hook installed by the build plugin vetoes the
start (raises) whenever the instance's container declares a `provides-volume`
entry, for every host state; a volume-providing container is never started as
a normal service through this hook path. -/
theorem pre_start_vetoes_volume_provider (app : App) (hostVolumes : String → Option Unit)
    (c : Nat) (v : String) (h : app.providesVolume c = some v) :
    pre_start app hostVolumes c =
      Except.error ("You cannot run a volume-providing container " ++ toString c) := by
  simp [pre_start, h]

/-- Claim C9 witness: container `20` of `appShared` provides volume `v`, and
`pre_start` vetoes its start. -/
theorem pre_start_vetoes_volume_provider_witness :
    pre_start appShared (fun _ => none) 20 =
      Except.error ("You cannot run a volume-providing container " ++ toString 20) :=
  pre_start_vetoes_volume_provider appShared (fun _ => none) 20 "v" rfl

/-- Claim C10: for a non-volume-providing container, the `PRE_START` hook
builds provider images on demand: for every named volume `v` of the container
with provider `p` in the catalog, if inspecting `v` on the host raises
`NotFound` then `p`'s image is built before the start proceeds, and if `v`
exists then no build is triggered for it. -/
theorem pre_start_builds_missing_volume_providers (app : App)
    (hostVolumes : String → Option Unit) (c : Nat) (v : String) (p : Nat)
    (hc : app.providesVolume c = none)
    (hvm : v ∈ app.namedVolumes c)
    (hp : get_providers app v = some p) :
    ∃ builds, pre_start app hostVolumes c = Except.ok builds ∧
      (hostVolumes v = none → p ∈ builds) ∧
      (∀ u, hostVolumes v = some u → p ∉ builds) := by
  refine ⟨(app.namedVolumes c).filterMap (fun v =>
      match get_providers app v with
      | some p =>
        match hostVolumes v with
        | none => some p
        | some _ => none
      | none => none), ?_, ?_, ?_⟩
  · simp [pre_start, hc]
  · intro hnone
    rw [List.mem_filterMap]
    exact ⟨v, hvm, by rw [hp, hnone]⟩
  · intro u hu hmem
    rw [List.mem_filterMap] at hmem
    obtain ⟨w, hwm, hw⟩ := hmem
    cases hgw : get_providers app w with
    | none => rw [hgw] at hw; cases hw
    | some q =>
      rw [hgw] at hw
      cases hhw : hostVolumes w with
      | none =>
        rw [hhw] at hw
        cases hw
        have h1 : app.providesVolume p = some v := get_providers_spec app v p hp
        have h2 : app.providesVolume p = some w := get_providers_spec app w p hgw
        rw [h1] at h2
        cases h2
        rw [hu] at hhw
        cases hhw
      | some u2 => rw [hhw] at hw; cases hw

/-- Claim C10 witness: container `10` of `appShared` mounts volume `v`
provided by `20`; on a host without the volume, the hook builds `20`. -/
theorem pre_start_builds_missing_volume_providers_witness :
    ∃ builds, pre_start appShared (fun _ => none) 10 = Except.ok builds ∧
      ((fun _ => (none : Option Unit)) "v" = none → 20 ∈ builds) ∧
      (∀ u, (fun _ => (none : Option Unit)) "v" = some u → 20 ∉ builds) :=
  pre_start_builds_missing_volume_providers appShared (fun _ => none) 10 "v" 20
    rfl (by decide) rfl

/-! ### The `POST_BUILD` volume-provisioning hook -/

/-- Claim C7: the `POST_BUILD` volume-provisioning hook is idempotent.
Invoking `post_build` a second time, from the host state the first invocation
produced and with the image's content identity unchanged (the container and
the host's `imageId` mapping are untouched), performs no side effect at all:
no instance is stopped or removed, and no volume is removed, created or
repopulated — after a provisioning run the volume's `build_id` label equals
the image id, so `should_extract_volume` is false.  The stop/remove/recreate/
populate sequence therefore happens at most once across the two invocations. -/
theorem post_build_idempotent (host : DockerHost) (c : BuiltContainer) :
    post_build (post_build host c).1 c = ((post_build host c).1, []) := by
  cases hpv : c.providesVolume with
  | none => simp [post_build, hpv]
  | some v =>
    by_cases hx : shouldExtractVolume host (host.imageId c.imageName) (some v) = true
    · have hfst : (post_build host c).1 = provisionedHost host v (host.imageId c.imageName) := by
        simp only [post_build, hpv, if_pos hx]
      have hnx : shouldExtractVolume (provisionedHost host v (host.imageId c.imageName))
          ((provisionedHost host v (host.imageId c.imageName)).imageId c.imageName)
          (some v) = false := by
        simp [shouldExtractVolume, provisionedHost, List.lookup]
      rw [hfst]
      simp only [post_build, hpv, hnx]
      simp
    · have hfst : (post_build host c).1 = host := by
        simp only [post_build, hpv, if_neg hx]
      rw [hfst]
      simp only [post_build, hpv, if_neg hx]

/-! ### Invariants of the pull phase -/

theorem pullStep_events_mono (pullOk : Nat → Bool) (st : PullState) (c : Nat) :
    st.events ⊆ (pullStep pullOk st c).events := by
  unfold pullStep
  by_cases h : pullOk c <;> simp [h]

theorem foldl_pullStep_events_mono (pullOk : Nat → Bool) (l : List Nat) :
    ∀ st : PullState, st.events ⊆ (l.foldl (pullStep pullOk) st).events := by
  induction l with
  | nil => exact fun st => List.Subset.refl _
  | cons a rest ih =>
    intro st
    exact (pullStep_events_mono pullOk st a).trans (ih (pullStep pullOk st a))

theorem pullStep_inv (pullOk : Nat → Bool) (tb0 : List Nat) (st : PullState) (c : Nat)
    (h : PullInv pullOk tb0 st) : PullInv pullOk tb0 (pullStep pullOk st c) := by
  obtain ⟨h1, h2, h3⟩ := h
  unfold pullStep
  by_cases hc : pullOk c
  · simp only [hc, if_true]
    refine ⟨?_, ?_, ?_⟩
    · intro x hx
      rcases List.mem_append.1 hx with hx | hx
      · exact h1 x hx
      · rcases List.mem_singleton.1 hx with rfl
        exact hc
    · intro x hx
      obtain ⟨hx1, hx2⟩ := h2 x hx
      exact ⟨hx1, List.mem_append_left _ hx2⟩
    · exact h3
  · simp only [hc, if_false]
    refine ⟨h1, ?_, ?_⟩
    · intro x hx
      rcases List.mem_append.1 hx with hx | hx
      · obtain ⟨hx1, hx2⟩ := h2 x hx
        exact ⟨hx1, List.mem_append_left _ hx2⟩
      · rcases List.mem_singleton.1 hx with rfl
        exact ⟨Bool.not_eq_true _ ▸ hc, List.mem_append_right _ (List.mem_singleton_self _)⟩
    · intro x hx
      rcases List.mem_append.1 hx with hx | hx
      · rcases h3 x hx with hx | hx
        · exact Or.inl hx
        · exact Or.inr (List.mem_append_left _ hx)
      · rcases List.mem_singleton.1 hx with rfl
        exact Or.inr (List.mem_append_right _ (List.mem_singleton_self _))

theorem foldl_pullStep_inv (pullOk : Nat → Bool) (tb0 : List Nat) (l : List Nat) :
    ∀ st : PullState, PullInv pullOk tb0 st → PullInv pullOk tb0 (l.foldl (pullStep pullOk) st) := by
  induction l with
  | nil => exact fun _ h => h
  | cons a rest ih =>
    intro st h
    exact ih (pullStep pullOk st a) (pullStep_inv pullOk tb0 st a h)

theorem foldl_pullStep_attempt (pullOk : Nat → Bool) (l : List Nat) :
    ∀ (st : PullState) (c : Nat), c ∈ l →
      Ev.pullAttempt c (pullOk c) ∈ (l.foldl (pullStep pullOk) st).events := by
  induction l with
  | nil => intro _ _ h; cases h
  | cons a rest ih =>
    intro st c hc
    rcases List.mem_cons.1 hc with rfl | hc
    · refine foldl_pullStep_events_mono pullOk rest (pullStep pullOk st c) ?_
      unfold pullStep
      by_cases h : pullOk c <;> simp [h]
    · exact ih (pullStep pullOk st a) c hc

theorem foldl_pullStep_shape (pullOk : Nat → Bool) (l : List Nat) :
    ∀ (st : PullState) (ev : Ev), ev ∈ (l.foldl (pullStep pullOk) st).events →
      ev ∈ st.events ∨ ∃ c, ev = Ev.pullAttempt c (pullOk c) := by
  induction l with
  | nil => exact fun _ _ h => Or.inl h
  | cons a rest ih =>
    intro st ev hev
    rcases ih (pullStep pullOk st a) ev hev with h | h
    · revert h
      unfold pullStep
      by_cases ha : pullOk a <;> simp only [ha, if_true, if_false] <;> intro h <;>
        rcases List.mem_append.1 h with h | h
      · exact Or.inl h
      · rcases List.mem_singleton.1 h with rfl
        exact Or.inr ⟨a, by rw [ha]⟩
      · exact Or.inl h
      · rcases List.mem_singleton.1 h with rfl
        refine Or.inr ⟨a, ?_⟩
        cases hpk : pullOk a
        · rfl
        · exact absurd hpk ha
    · exact Or.inr h

/-! ### Invariants of the ancestor-resolution phase -/

theorem ancestorWalk_events_mono (pullOk : Nat → Bool) (l : List Nat) :
    ∀ st : AncState, st.events ⊆ (ancestorWalk pullOk st l).events := by
  induction l with
  | nil => exact fun st => List.Subset.refl _
  | cons a rest ih =>
    intro st
    rw [ancestorWalk]
    by_cases h1 : a ∈ st.failed
    · rw [if_pos h1]
      exact List.Subset.trans (List.subset_append_left st.events [Ev.visitAncestor a])
        (ih ⟨st.pulled, st.failed, a :: st.atb, st.events ++ [Ev.visitAncestor a]⟩)
    · rw [if_neg h1]
      by_cases h2 : a ∈ st.pulled
      · rw [if_pos h2]
        exact List.subset_append_left _ _
      · rw [if_neg h2]
        by_cases h3 : pullOk a
        · rw [if_pos h3]
          exact List.subset_append_left _ _
        · rw [if_neg h3]
          exact List.Subset.trans
            (List.subset_append_left st.events [Ev.visitAncestor a, Ev.pullAttempt a false])
            (ih ⟨st.pulled, st.failed ++ [a], a :: st.atb,
              st.events ++ [Ev.visitAncestor a, Ev.pullAttempt a false]⟩)

theorem ancestorWalk_inv (pullOk : Nat → Bool) (ctb : List Nat) (l : List Nat) :
    ∀ st : AncState, AncInv pullOk ctb st → AncInv pullOk ctb (ancestorWalk pullOk st l) := by
  induction l with
  | nil => exact fun _ h => h
  | cons a rest ih =>
    intro st h
    obtain ⟨h1, h2, h3⟩ := h
    rw [ancestorWalk]
    by_cases hf : a ∈ st.failed
    · rw [if_pos hf]
      refine ih _ ⟨h1, ?_, ?_⟩
      · intro x hx
        obtain ⟨hx1, hx2⟩ := h2 x hx
        exact ⟨hx1, List.mem_append_left _ hx2⟩
      · intro x hx
        rcases List.mem_cons.1 hx with rfl | hx
        · exact Or.inr hf
        · exact h3 x hx
    · rw [if_neg hf]
      by_cases hp : a ∈ st.pulled
      · rw [if_pos hp]
        refine ⟨h1, ?_, h3⟩
        intro x hx
        obtain ⟨hx1, hx2⟩ := h2 x hx
        exact ⟨hx1, List.mem_append_left _ hx2⟩
      · rw [if_neg hp]
        by_cases hk : pullOk a
        · rw [if_pos hk]
          refine ⟨?_, ?_, h3⟩
          · intro x hx
            rcases List.mem_append.1 hx with hx | hx
            · exact h1 x hx
            · rcases List.mem_singleton.1 hx with rfl
              exact hk
          · intro x hx
            obtain ⟨hx1, hx2⟩ := h2 x hx
            exact ⟨hx1, List.mem_append_left _ hx2⟩
        · rw [if_neg hk]
          refine ih _ ⟨h1, ?_, ?_⟩
          · intro x hx
            rcases List.mem_append.1 hx with hx | hx
            · obtain ⟨hx1, hx2⟩ := h2 x hx
              exact ⟨hx1, List.mem_append_left _ hx2⟩
            · rcases List.mem_singleton.1 hx with rfl
              refine ⟨Bool.not_eq_true _ ▸ hk, List.mem_append_right _ ?_⟩
              simp
          · intro x hx
            rcases List.mem_cons.1 hx with rfl | hx
            · exact Or.inr (List.mem_append_right _ (List.mem_singleton_self _))
            · rcases h3 x hx with hx | hx
              · exact Or.inl hx
              · exact Or.inr (List.mem_append_left _ hx)

theorem ancestorWalk_shape (pullOk : Nat → Bool) (l : List Nat) :
    ∀ (st : AncState) (ev : Ev), ev ∈ (ancestorWalk pullOk st l).events →
      ev ∈ st.events ∨ (∃ c, ev = Ev.visitAncestor c) ∨
        ∃ c, ev = Ev.pullAttempt c (pullOk c) := by
  induction l with
  | nil => exact fun _ _ h => Or.inl h
  | cons a rest ih =>
    intro st ev hev
    rw [ancestorWalk] at hev
    by_cases hf : a ∈ st.failed
    · rw [if_pos hf] at hev
      rcases ih _ ev hev with h | h
      · rcases List.mem_append.1 h with h | h
        · exact Or.inl h
        · rcases List.mem_singleton.1 h with rfl
          exact Or.inr (Or.inl ⟨a, rfl⟩)
      · exact Or.inr h
    · rw [if_neg hf] at hev
      by_cases hp : a ∈ st.pulled
      · rw [if_pos hp] at hev
        rcases List.mem_append.1 hev with h | h
        · exact Or.inl h
        · rcases List.mem_singleton.1 h with rfl
          exact Or.inr (Or.inl ⟨a, rfl⟩)
      · rw [if_neg hp] at hev
        by_cases hk : pullOk a
        · rw [if_pos hk] at hev
          rcases List.mem_append.1 hev with h | h
          · exact Or.inl h
          · rcases List.mem_cons.1 h with rfl | h
            · exact Or.inr (Or.inl ⟨a, rfl⟩)
            · rcases List.mem_singleton.1 h with rfl
              exact Or.inr (Or.inr ⟨a, by rw [hk]⟩)
        · rw [if_neg hk] at hev
          rcases ih _ ev hev with h | h
          · rcases List.mem_append.1 h with h | h
            · exact Or.inl h
            · rcases List.mem_cons.1 h with rfl | h
              · exact Or.inr (Or.inl ⟨a, rfl⟩)
              · rcases List.mem_singleton.1 h with rfl
                refine Or.inr (Or.inr ⟨a, ?_⟩)
                cases hpk : pullOk a
                · rfl
                · exact absurd hpk hk
          · exact Or.inr h

theorem ancestorPhase_events_mono (app : App) (pullOk : Nat → Bool) (recursive : Bool)
    (ctb : List Nat) (l : List Nat) :
    ∀ (st out : AncState), ancestorPhase app pullOk recursive ctb st l = some out →
      st.events ⊆ out.events := by
  induction l with
  | nil =>
    intro st out h
    cases h
    exact List.Subset.refl _
  | cons c rest ih =>
    intro st out h
    cases recursive with
    | true =>
      simp only [ancestorPhase] at h
      cases hds : dependency_sort (appFuel app ctb) ctb (parentEdges app) with
      | none => rw [hds] at h; cases h
      | some sorted =>
        simp only [hds] at h
        refine List.Subset.trans ?_ (ih _ out h)
        exact ancestorWalk_events_mono pullOk _ ⟨st.pulled, st.failed, st.atb ++ [c], st.events⟩
    | false =>
      simp only [ancestorPhase] at h
      exact ih ⟨st.pulled, st.failed, st.atb ++ [c], st.events⟩ out h

theorem ancestorPhase_inv (app : App) (pullOk : Nat → Bool) (recursive : Bool)
    (ctb : List Nat) (l : List Nat) :
    ∀ (st out : AncState), (∀ c ∈ l, c ∈ ctb) →
      ancestorPhase app pullOk recursive ctb st l = some out →
      AncInv pullOk ctb st → AncInv pullOk ctb out := by
  induction l with
  | nil =>
    intro st out _ h hinv
    cases h
    exact hinv
  | cons c rest ih =>
    intro st out hsub h hinv
    obtain ⟨h1, h2, h3⟩ := hinv
    have hst1 : AncInv pullOk ctb ⟨st.pulled, st.failed, st.atb ++ [c], st.events⟩ := by
      refine ⟨h1, h2, ?_⟩
      intro x hx
      rcases List.mem_append.1 hx with hx | hx
      · exact h3 x hx
      · rcases List.mem_singleton.1 hx with rfl
        exact Or.inl (hsub x (List.mem_cons_self _ _))
    cases recursive with
    | true =>
      simp only [ancestorPhase] at h
      cases hds : dependency_sort (appFuel app ctb) ctb (parentEdges app) with
      | none => rw [hds] at h; cases h
      | some sorted =>
        simp only [hds] at h
        refine ih _ out (fun x hx => hsub x (List.mem_cons_of_mem _ hx)) h ?_
        exact ancestorWalk_inv pullOk ctb _ _ hst1
    | false =>
      simp only [ancestorPhase] at h
      exact ih ⟨st.pulled, st.failed, st.atb ++ [c], st.events⟩ out
        (fun x hx => hsub x (List.mem_cons_of_mem _ hx)) h hst1

theorem ancestorPhase_shape (app : App) (pullOk : Nat → Bool) (recursive : Bool)
    (ctb : List Nat) (l : List Nat) :
    ∀ (st out : AncState) (ev : Ev), ancestorPhase app pullOk recursive ctb st l = some out →
      ev ∈ out.events →
      ev ∈ st.events ∨ (∃ c, ev = Ev.visitAncestor c) ∨
        ∃ c, ev = Ev.pullAttempt c (pullOk c) := by
  induction l with
  | nil =>
    intro st out ev h hev
    cases h
    exact Or.inl hev
  | cons c rest ih =>
    intro st out ev h hev
    cases recursive with
    | true =>
      simp only [ancestorPhase] at h
      cases hds : dependency_sort (appFuel app ctb) ctb (parentEdges app) with
      | none => rw [hds] at h; cases h
      | some sorted =>
        simp only [hds] at h
        rcases ih _ out ev h hev with hsh | hsh
        · exact ancestorWalk_shape pullOk sorted.dropLast.reverse
            ⟨st.pulled, st.failed, st.atb ++ [c], st.events⟩ ev hsh
        · exact Or.inr hsh
    | false =>
      simp only [ancestorPhase] at h
      exact ih ⟨st.pulled, st.failed, st.atb ++ [c], st.events⟩ out ev h hev

/-! ### Shape of the execution trace -/

theorem buildFailureEvents_shape (logLines : List String) (logPath : String) (ev : Ev)
    (h : ev ∈ buildFailureEvents logLines logPath) :
    (∃ s, ev = Ev.echo s) ∨ (∃ s, ev = Ev.echoErr s) ∨ ev = Ev.exitCode 1 := by
  unfold buildFailureEvents at h
  rcases List.mem_cons.1 h with rfl | h
  · exact Or.inl ⟨_, rfl⟩
  rcases List.mem_append.1 h with h | h
  · rcases List.mem_map.1 h with ⟨l, _, rfl⟩
    exact Or.inl ⟨_, rfl⟩
  · rcases List.mem_cons.1 h with rfl | h
    · exact Or.inr (Or.inl ⟨_, rfl⟩)
    · rcases List.mem_singleton.1 h with rfl
      exact Or.inr (Or.inr rfl)

theorem execLoop_shape (buildOk : Nat → Bool) (logLines : List String) (logPath : String)
    (q : List Nat) (ev : Ev) (h : ev ∈ execLoop buildOk logLines logPath q) :
    ev = Ev.postGroupBuild ∨ (∃ c, ev = Ev.buildImage c) ∨ (∃ s, ev = Ev.echo s) ∨
      (∃ s, ev = Ev.echoErr s) ∨ ev = Ev.exitCode 1 := by
  induction q with
  | nil =>
    rcases List.mem_singleton.1 h with rfl
    exact Or.inl rfl
  | cons c rest ih =>
    rw [execLoop] at h
    rcases List.mem_cons.1 h with rfl | h
    · exact Or.inr (Or.inl ⟨c, rfl⟩)
    by_cases hb : buildOk c
    · rw [if_pos hb] at h
      exact ih h
    · rw [if_neg hb] at h
      rcases buildFailureEvents_shape logLines logPath ev h with h | h | h
      · exact Or.inr (Or.inr (Or.inl h))
      · exact Or.inr (Or.inr (Or.inr (Or.inl h)))
      · exact Or.inr (Or.inr (Or.inr (Or.inr h)))

theorem executePhase_no_pullAttempt (buildOk : Nat → Bool) (logLines : List String)
    (logPath : String) (q : List Nat) (c : Nat) (b : Bool) :
    Ev.pullAttempt c b ∉ executePhase buildOk logLines logPath q := by
  intro h
  unfold executePhase at h
  rcases List.mem_cons.1 h with h | h
  · exact Ev.noConfusion h
  · rcases execLoop_shape buildOk logLines logPath q _ h with h | h | h | h | h
    · exact Ev.noConfusion h
    · obtain ⟨c0, h⟩ := h
      exact Ev.noConfusion h
    · obtain ⟨s, h⟩ := h
      exact Ev.noConfusion h
    · obtain ⟨s, h⟩ := h
      exact Ev.noConfusion h
    · exact Ev.noConfusion h

/-! ### Run-level properties -/

theorem build_inversion {app : App} {pullOk buildOk : Nat → Bool} {logLines : List String}
    {logPath : String} {request : List BuildArg} {recursive : Bool} {r : RunResult}
    (h : build app pullOk buildOk logLines logPath request recursive = some r) :
    ∃ candidates ast sorted,
      dependency_sort (appFuel app (requestToPull app request)) (requestToPull app request)
          app.dependencies = some candidates ∧
      resolvePhase app pullOk recursive
          (pullPhase pullOk (requestToBuild app request) candidates) = some ast ∧
      dependency_sort (appFuel app ast.atb) ast.atb (parentEdges app) = some sorted ∧
      r.pullCandidates = candidates ∧
      r.ctb = (pullPhase pullOk (requestToBuild app request) candidates).toBuild ∧
      r.pulled = ast.pulled ∧ r.failed = ast.failed ∧ r.atb = ast.atb ∧
      r.finalOrder = sorted.filter (· ∈ ast.atb) ∧
      r.resolveEvents = ast.events ∧
      r.execEvents = executePhase buildOk logLines logPath (sorted.filter (· ∈ ast.atb)) := by
  unfold build at h
  cases hds : dependency_sort (appFuel app (requestToPull app request))
      (requestToPull app request) app.dependencies with
  | none => rw [hds] at h; cases h
  | some candidates =>
    simp only [hds] at h
    cases hres : resolvePhase app pullOk recursive
        (pullPhase pullOk (requestToBuild app request) candidates) with
    | none => rw [hres] at h; cases h
    | some ast =>
      simp only [hres] at h
      unfold finalize at h
      cases hsort : dependency_sort (appFuel app ast.atb) ast.atb (parentEdges app) with
      | none => rw [hsort] at h; cases h
      | some sorted =>
        simp only [hsort] at h
        cases h
        exact ⟨candidates, ast, sorted, rfl, hres, hsort, rfl, rfl, rfl, rfl, rfl, rfl, rfl, rfl⟩

/-- Claim C4 as amended: every pull candidate — i.e. every container expanded
from the profile sentinel, closed under runtime dependencies — has a pull
attempt recorded in the resolution trace, which precedes the whole execution
trace; the resolution trace contains no build and the execution trace contains
no pull attempt, so every pull attempt happens before any build starts; and a
container in the final build order either entered `containers_to_build`
straight from the explicit (non-sentinel) request expansion — with no pull
attempt required — or had a pull tried and failed this run. -/
theorem pulls_precede_builds_amended (app : App) (pullOk buildOk : Nat → Bool)
    (logLines : List String) (logPath : String) (request : List BuildArg)
    (recursive : Bool) (r : RunResult)
    (h : build app pullOk buildOk logLines logPath request recursive = some r) :
    (∀ c ∈ r.pullCandidates, Ev.pullAttempt c (pullOk c) ∈ r.resolveEvents) ∧
    (∀ ev ∈ r.resolveEvents, ∀ c, ev ≠ Ev.buildImage c) ∧
    (∀ ev ∈ r.execEvents, ∀ c b, ev ≠ Ev.pullAttempt c b) ∧
    (∀ c ∈ r.finalOrder, c ∈ requestToBuild app request ∨
      (pullOk c = false ∧ Ev.pullAttempt c false ∈ r.resolveEvents)) := by
  obtain ⟨candidates, ast, sorted, hds, hres, hsort, e1, e2, e3, e4, e5, e6, e7, e8⟩ :=
    build_inversion h
  have hpinv : PullInv pullOk (requestToBuild app request)
      (pullPhase pullOk (requestToBuild app request) candidates) := by
    refine foldl_pullStep_inv pullOk (requestToBuild app request) candidates _ ?_
    exact ⟨fun x hx => absurd hx (List.not_mem_nil x),
           fun x hx => absurd hx (List.not_mem_nil x), fun x hx => Or.inl hx⟩
  have hainv : AncInv pullOk (pullPhase pullOk (requestToBuild app request) candidates).toBuild
      ast := by
    refine ancestorPhase_inv app pullOk recursive _ _ _ ast (fun c hc => hc) hres ?_
    obtain ⟨p1, p2, p3⟩ := hpinv
    exact ⟨p1, p2, fun x hx => absurd hx (List.not_mem_nil x)⟩
  have hmono : (pullPhase pullOk (requestToBuild app request) candidates).events ⊆
      ast.events := by
    have := ancestorPhase_events_mono app pullOk recursive
      (pullPhase pullOk (requestToBuild app request) candidates).toBuild
      (pullPhase pullOk (requestToBuild app request) candidates).toBuild
      ⟨(pullPhase pullOk (requestToBuild app request) candidates).pulled,
       (pullPhase pullOk (requestToBuild app request) candidates).failed, [],
       (pullPhase pullOk (requestToBuild app request) candidates).events⟩ ast hres
    exact this
  refine ⟨?_, ?_, ?_, ?_⟩
  · intro c hc
    rw [e1] at hc
    rw [e7]
    exact hmono (foldl_pullStep_attempt pullOk candidates ⟨[], [], _, []⟩ c hc)
  · intro ev hev c
    rw [e7] at hev
    have hshape := ancestorPhase_shape app pullOk recursive
      (pullPhase pullOk (requestToBuild app request) candidates).toBuild
      (pullPhase pullOk (requestToBuild app request) candidates).toBuild
      ⟨(pullPhase pullOk (requestToBuild app request) candidates).pulled,
       (pullPhase pullOk (requestToBuild app request) candidates).failed, [],
       (pullPhase pullOk (requestToBuild app request) candidates).events⟩ ast ev hres hev
    rcases hshape with hsh | hsh | hsh
    · rcases foldl_pullStep_shape pullOk candidates ⟨[], [], _, []⟩ ev hsh with hsh2 | hsh2
      · exact absurd hsh2 (List.not_mem_nil ev)
      · obtain ⟨c0, rfl⟩ := hsh2
        exact fun hcon => Ev.noConfusion hcon
    · obtain ⟨c0, rfl⟩ := hsh
      exact fun hcon => Ev.noConfusion hcon
    · obtain ⟨c0, rfl⟩ := hsh
      exact fun hcon => Ev.noConfusion hcon
  · intro ev hev c b heq
    rw [e8] at hev
    subst heq
    exact executePhase_no_pullAttempt buildOk logLines logPath _ c b hev
  · intro c hc
    rw [e6] at hc
    have hatb : c ∈ ast.atb := by
      rcases List.mem_filter.1 hc with ⟨_, hdec⟩
      exact of_decide_eq_true hdec
    obtain ⟨a1, a2, a3⟩ := hainv
    obtain ⟨p1, p2, p3⟩ := hpinv
    rcases a3 c hatb with hctb | hfail
    · rcases p3 c hctb with htb | hfail2
      · exact Or.inl htb
      · obtain ⟨hb, hevt⟩ := p2 c hfail2
        exact Or.inr ⟨hb, e7 ▸ hmono hevt⟩
    · obtain ⟨hb, hevt⟩ := a2 c hfail
      exact Or.inr ⟨hb, e7 ▸ hevt⟩

/-- Claim C4 witness: the amended theorem instantiated on the concrete
profile-sentinel run `runShared` (every pull failing). -/
theorem pulls_precede_builds_amended_witness :
    (∀ c ∈ runShared.pullCandidates, Ev.pullAttempt c false ∈ runShared.resolveEvents) ∧
    (∀ ev ∈ runShared.resolveEvents, ∀ c, ev ≠ Ev.buildImage c) ∧
    (∀ ev ∈ runShared.execEvents, ∀ c b, ev ≠ Ev.pullAttempt c b) ∧
    (∀ c ∈ runShared.finalOrder, c ∈ requestToBuild appShared [BuildArg.profile] ∨
      (false = false ∧ Ev.pullAttempt c false ∈ runShared.resolveEvents)) :=
  pulls_precede_builds_amended appShared (fun _ => false) (fun _ => true) [] "log"
    [BuildArg.profile] true runShared rfl

/-- Every pull attempt recorded in the trace of a run carries the pull
oracle's verdict for that container: pull attempts are deterministic per
container within a run. -/
theorem runEvents_pullAttempt_ok (app : App) (pullOk buildOk : Nat → Bool)
    (logLines : List String) (logPath : String) (request : List BuildArg)
    (recursive : Bool) (r : RunResult)
    (h : build app pullOk buildOk logLines logPath request recursive = some r) :
    ∀ ev ∈ runEvents r, ∀ c b, ev = Ev.pullAttempt c b → b = pullOk c := by
  obtain ⟨candidates, ast, sorted, hds, hres, hsort, e1, e2, e3, e4, e5, e6, e7, e8⟩ :=
    build_inversion h
  intro ev hev c b heq
  subst heq
  rcases List.mem_append.1 hev with hev | hev
  · rw [e7] at hev
    have hshape := ancestorPhase_shape app pullOk recursive
      (pullPhase pullOk (requestToBuild app request) candidates).toBuild
      (pullPhase pullOk (requestToBuild app request) candidates).toBuild
      ⟨(pullPhase pullOk (requestToBuild app request) candidates).pulled,
       (pullPhase pullOk (requestToBuild app request) candidates).failed, [],
       (pullPhase pullOk (requestToBuild app request) candidates).events⟩ ast _ hres hev
    rcases hshape with hsh | hsh | hsh
    · rcases foldl_pullStep_shape pullOk candidates ⟨[], [], _, []⟩ _ hsh with hsh2 | hsh2
      · exact absurd hsh2 (List.not_mem_nil _)
      · obtain ⟨c0, hc0⟩ := hsh2
        cases hc0
        rfl
    · obtain ⟨c0, hc0⟩ := hsh
      exact Ev.noConfusion hc0
    · obtain ⟨c0, hc0⟩ := hsh
      cases hc0
      rfl
  · rw [e8] at hev
    exact absurd hev (executePhase_no_pullAttempt buildOk logLines logPath _ c b)

/-- Claim C8: throughout a single run of `build`, the pulled set and the
failed-pulls set stay disjoint — the final recorded sets share no container,
and for every prefix of the run's event trace (i.e. at every intermediate
point of the run) no container has both a successful and a failed pull
attempt recorded, so each container reaches at most one terminal pull
outcome per run. -/
theorem pull_outcomes_disjoint (app : App) (pullOk buildOk : Nat → Bool)
    (logLines : List String) (logPath : String) (request : List BuildArg)
    (recursive : Bool) (r : RunResult)
    (h : build app pullOk buildOk logLines logPath request recursive = some r) :
    (∀ c ∈ r.pulled, c ∉ r.failed) ∧
    (∀ evs, evs <+: runEvents r → ∀ c,
      Ev.pullAttempt c true ∈ evs → Ev.pullAttempt c false ∉ evs) := by
  obtain ⟨candidates, ast, sorted, hds, hres, hsort, e1, e2, e3, e4, e5, e6, e7, e8⟩ :=
    build_inversion h
  have hpinv : PullInv pullOk (requestToBuild app request)
      (pullPhase pullOk (requestToBuild app request) candidates) := by
    refine foldl_pullStep_inv pullOk (requestToBuild app request) candidates _ ?_
    exact ⟨fun x hx => absurd hx (List.not_mem_nil x),
           fun x hx => absurd hx (List.not_mem_nil x), fun x hx => Or.inl hx⟩
  have hainv : AncInv pullOk (pullPhase pullOk (requestToBuild app request) candidates).toBuild
      ast := by
    refine ancestorPhase_inv app pullOk recursive _ _ _ ast (fun c hc => hc) hres ?_
    obtain ⟨p1, p2, p3⟩ := hpinv
    exact ⟨p1, p2, fun x hx => absurd hx (List.not_mem_nil x)⟩
  obtain ⟨a1, a2, a3⟩ := hainv
  constructor
  · intro c hc hf
    rw [e3] at hc
    rw [e4] at hf
    have ht : pullOk c = true := a1 c hc
    have hf2 : pullOk c = false := (a2 c hf).1
    rw [ht] at hf2
    exact Bool.noConfusion hf2
  · intro evs hpre c htrue hfalse
    have h1 : (true : Bool) = pullOk c :=
      runEvents_pullAttempt_ok app pullOk buildOk logLines logPath request recursive r h
        _ (hpre.subset htrue) c true rfl
    have h2 : (false : Bool) = pullOk c :=
      runEvents_pullAttempt_ok app pullOk buildOk logLines logPath request recursive r h
        _ (hpre.subset hfalse) c false rfl
    rw [← h1] at h2
    exact Bool.noConfusion h2

/-- Claim C8 witness: the disjointness instantiated on the concrete
profile-sentinel run `runShared`. -/
theorem pull_outcomes_disjoint_witness :
    (∀ c ∈ runShared.pulled, c ∉ runShared.failed) ∧
    (∀ evs, evs <+: runEvents runShared → ∀ c,
      Ev.pullAttempt c true ∈ evs → Ev.pullAttempt c false ∉ evs) :=
  pull_outcomes_disjoint appShared (fun _ => false) (fun _ => true) [] "log"
    [BuildArg.profile] true runShared rfl

/-! ### The failure path of the execute phase -/

theorem lastN_of_length_le {α : Type} {n : Nat} {l : List α} (h : l.length ≤ n) :
    lastN n l = l := by
  unfold lastN
  rw [Nat.sub_eq_zero_of_le h, List.drop_zero]

theorem lastN_key {α : Type} (l t : List α) (ht : 1 ≤ t.length) :
    lastN 15 (lastN 14 l ++ t) = lastN 15 (l ++ t) := by
  unfold lastN
  rw [List.drop_append_eq_append_drop, List.drop_append_eq_append_drop, List.drop_drop]
  congr 1
  · congr 1
    simp only [List.length_append, List.length_drop]
    omega
  · congr 1
    simp only [List.length_append, List.length_drop]
    omega

theorem logTail_foldl (xs : List String) :
    ∀ acc : List String, acc.length ≤ 15 →
      xs.foldl (fun lines line => lastN 14 lines ++ [line]) acc = lastN 15 (acc ++ xs) := by
  induction xs with
  | nil =>
    intro acc h
    rw [List.foldl_nil, List.append_nil]
    exact (lastN_of_length_le h).symm
  | cons x xs ih =>
    intro acc h
    rw [List.foldl_cons]
    rw [ih (lastN 14 acc ++ [x]) (by simp only [List.length_append, lastN,
      List.length_drop, List.length_singleton]; omega)]
    rw [List.append_assoc]
    exact lastN_key acc (x :: xs) (by simp)

/-- The log-tailing loop computes exactly the last 15 lines of the file
(fewer when the file is shorter). -/
theorem logTail_eq_lastN (file : List String) : logTail file = lastN 15 file := by
  unfold logTail
  rw [logTail_foldl file [] (by simp)]
  rfl

theorem execLoop_append_of_ok (buildOk : Nat → Bool) (logLines : List String)
    (logPath : String) (q2 : List Nat) :
    ∀ q1 : List Nat, (∀ c ∈ q1, buildOk c = true) →
      execLoop buildOk logLines logPath (q1 ++ q2) =
        q1.map Ev.buildImage ++ execLoop buildOk logLines logPath q2 := by
  intro q1
  induction q1 with
  | nil => intro _; rfl
  | cons a rest ih =>
    intro h
    rw [List.cons_append, execLoop, if_pos (h a (List.mem_cons_self a rest)),
      ih (fun c hc => h c (List.mem_cons_of_mem a hc))]
    rfl

/-- Claim C6: when the build of `cf` fails after the builds of `q1` succeeded,
the execute phase runs exactly the builds of `q1` and `cf`, echoes the header,
then exactly the last 15 lines of the shared log file (fewer if the file has
fewer lines) with ANSI color-control sequences stripped and trailing
whitespace removed, prints the log path on stderr, and exits with code 1; it
attempts no remaining queued build, never fires `POST_GROUP_BUILD`, and the
builds completed earlier in the queue remain in the trace (nothing undoes
them). -/
theorem build_failure_tail_and_abort (buildOk : Nat → Bool) (logLines : List String)
    (logPath : String) (q1 : List Nat) (cf : Nat) (q2 : List Nat)
    (h1 : ∀ c ∈ q1, buildOk c = true) (h2 : buildOk cf = false) :
    executePhase buildOk logLines logPath (q1 ++ cf :: q2) =
      Ev.preGroupBuild ::
        (q1.map Ev.buildImage ++
          (Ev.buildImage cf ::
            (Ev.echo "Build failed! Last 15 lines of log:" ::
              ((lastN 15 logLines).map (fun l => Ev.echo ("  " ++ pyRstrip (removeAnsi l))) ++
                [Ev.echoErr ("See full build log at " ++ logPath), Ev.exitCode 1])))) ∧
    Ev.postGroupBuild ∉ executePhase buildOk logLines logPath (q1 ++ cf :: q2) ∧
    (∀ c ∈ q2, c ∉ q1 → c ≠ cf →
      Ev.buildImage c ∉ executePhase buildOk logLines logPath (q1 ++ cf :: q2)) ∧
    (∀ c ∈ q1, Ev.buildImage c ∈ executePhase buildOk logLines logPath (q1 ++ cf :: q2)) := by
  have hmain : executePhase buildOk logLines logPath (q1 ++ cf :: q2) =
      Ev.preGroupBuild ::
        (q1.map Ev.buildImage ++
          (Ev.buildImage cf ::
            (Ev.echo "Build failed! Last 15 lines of log:" ::
              ((lastN 15 logLines).map (fun l => Ev.echo ("  " ++ pyRstrip (removeAnsi l))) ++
                [Ev.echoErr ("See full build log at " ++ logPath), Ev.exitCode 1])))) := by
    unfold executePhase
    rw [execLoop_append_of_ok buildOk logLines logPath (cf :: q2) q1 h1]
    rw [execLoop]
    rw [if_neg (by rw [h2]; exact Bool.false_ne_true)]
    unfold buildFailureEvents
    rw [logTail_eq_lastN]
    rfl
  refine ⟨hmain, ?_, ?_, ?_⟩
  · rw [hmain]
    intro hmem
    rcases List.mem_cons.1 hmem with hc | hc
    · exact Ev.noConfusion hc
    rcases List.mem_append.1 hc with hc | hc
    · rcases List.mem_map.1 hc with ⟨c0, _, hc0⟩
      exact Ev.noConfusion hc0
    rcases List.mem_cons.1 hc with hc | hc
    · exact Ev.noConfusion hc
    rcases List.mem_cons.1 hc with hc | hc
    · exact Ev.noConfusion hc
    rcases List.mem_append.1 hc with hc | hc
    · rcases List.mem_map.1 hc with ⟨l0, _, hc0⟩
      exact Ev.noConfusion hc0
    rcases List.mem_cons.1 hc with hc | hc
    · exact Ev.noConfusion hc
    · rcases List.mem_singleton.1 hc with hc
      exact Ev.noConfusion hc
  · intro c hc2 hc1 hcf
    rw [hmain]
    intro hmem
    rcases List.mem_cons.1 hmem with hc | hc
    · exact Ev.noConfusion hc
    rcases List.mem_append.1 hc with hc | hc
    · rcases List.mem_map.1 hc with ⟨c0, hc0m, hc0⟩
      cases hc0
      exact hc1 hc0m
    rcases List.mem_cons.1 hc with hc | hc
    · exact hcf (Ev.buildImage.inj hc)
    rcases List.mem_cons.1 hc with hc | hc
    · exact Ev.noConfusion hc
    rcases List.mem_append.1 hc with hc | hc
    · rcases List.mem_map.1 hc with ⟨l0, _, hc0⟩
      exact Ev.noConfusion hc0
    rcases List.mem_cons.1 hc with hc | hc
    · exact Ev.noConfusion hc
    · rcases List.mem_singleton.1 hc with hc
      exact Ev.noConfusion hc
  · intro c hc
    rw [hmain]
    exact List.mem_cons_of_mem _
      (List.mem_append_left _ (List.mem_map_of_mem Ev.buildImage hc))

/-- Claim C6 witness: the failure behaviour instantiated on the queue
`[0, 1, 2]` with only container `0` building successfully and an empty log
file. -/
theorem build_failure_tail_and_abort_witness :
    executePhase (fun c => c == 0) [] "log" ([0] ++ 1 :: [2]) =
      Ev.preGroupBuild ::
        (([0].map Ev.buildImage) ++
          (Ev.buildImage 1 ::
            (Ev.echo "Build failed! Last 15 lines of log:" ::
              ((lastN 15 []).map (fun l => Ev.echo ("  " ++ pyRstrip (removeAnsi l))) ++
                [Ev.echoErr ("See full build log at " ++ "log"), Ev.exitCode 1])))) ∧
    Ev.postGroupBuild ∉ executePhase (fun c => c == 0) [] "log" ([0] ++ 1 :: [2]) ∧
    (∀ c ∈ [2], c ∉ [0] → c ≠ 1 →
      Ev.buildImage c ∉ executePhase (fun c => c == 0) [] "log" ([0] ++ 1 :: [2])) ∧
    (∀ c ∈ [0], Ev.buildImage c ∈ executePhase (fun c => c == 0) [] "log" ([0] ++ 1 :: [2])) :=
  build_failure_tail_and_abort (fun c => c == 0) [] "log" [0] 1 [2]
    (by decide) (by decide)

/-! ### Membership of the profile expansion -/

theorem profileExpand_mem (app : App) (l : List Nat) (c : Nat) :
    c ∈ profileExpand app l ↔ ∃ e ∈ l, (app.inProfile e || app.system e) = true ∧
      (c = e ∨ ∃ v ∈ app.namedVolumes e, get_providers app v = some c) := by
  induction l with
  | nil => simp [profileExpand]
  | cons e rest ih =>
    rw [profileExpand]
    by_cases he : (app.inProfile e || app.system e) = true
    · rw [if_pos he]
      constructor
      · intro h
        rcases List.mem_append.1 h with h | h
        · rcases List.mem_cons.1 h with rfl | h
          · exact ⟨c, List.mem_cons_self c rest, he, Or.inl rfl⟩
          · rcases List.mem_filterMap.1 h with ⟨v, hv, hp⟩
            exact ⟨e, List.mem_cons_self e rest, he, Or.inr ⟨v, hv, hp⟩⟩
        · rcases ih.1 h with ⟨e2, he2, hcond, hor⟩
          exact ⟨e2, List.mem_cons_of_mem _ he2, hcond, hor⟩
      · rintro ⟨e2, he2, hcond, hor⟩
        rcases List.mem_cons.1 he2 with rfl | he2
        · rcases hor with rfl | ⟨v, hv, hp⟩
          · exact List.mem_append_left _ (List.mem_cons_self _ _)
          · exact List.mem_append_left _
              (List.mem_cons_of_mem _ (List.mem_filterMap.2 ⟨v, hv, hp⟩))
        · exact List.mem_append_right _ (ih.2 ⟨e2, he2, hcond, hor⟩)
    · rw [if_neg he]
      rw [ih]
      constructor
      · rintro ⟨e2, he2, hcond, hor⟩
        exact ⟨e2, List.mem_cons_of_mem _ he2, hcond, hor⟩
      · rintro ⟨e2, he2, hcond, hor⟩
        rcases List.mem_cons.1 he2 with rfl | he2
        · exact absurd hcond he
        · exact ⟨e2, he2, hcond, hor⟩

/-- Claim C5 as amended: a container is in the pull-expansion of a build
request iff the request contains the profile sentinel and the container is
either itself marked `in_profile` or `system` in the catalog, or is the
provider of a named volume mounted by such a container.  The expansion list
is exactly that set element-wise, but a provider shared by several expanding
containers occurs once per reference (see the counterexample): the duplicates
are only removed afterwards, by the dependency sort of the pull phase. -/
theorem profile_expansion_membership (app : App) (request : List BuildArg) (c : Nat) :
    c ∈ requestToPull app request ↔
      (BuildArg.profile ∈ request ∧ ∃ e ∈ app.containers,
        (app.inProfile e || app.system e) = true ∧
        (c = e ∨ ∃ v ∈ app.namedVolumes e, get_providers app v = some c)) := by
  induction request with
  | nil => simp [requestToPull]
  | cons arg rest ih =>
    cases arg with
    | profile =>
      rw [requestToPull]
      constructor
      · intro h
        rcases List.mem_append.1 h with h | h
        · exact ⟨List.mem_cons_self _ _, (profileExpand_mem app app.containers c).1 h⟩
        · exact ⟨List.mem_cons_self _ _, (ih.1 h).2⟩
      · rintro ⟨-, hP⟩
        exact List.mem_append_left _ ((profileExpand_mem app app.containers c).2 hP)
    | named d =>
      rw [requestToPull]
      rw [ih]
      constructor
      · rintro ⟨hp, hP⟩
        exact ⟨List.mem_cons_of_mem _ hp, hP⟩
      · rintro ⟨hp, hP⟩
        rcases List.mem_cons.1 hp with heq | hp
        · exact BuildArg.noConfusion heq
        · exact ⟨hp, hP⟩

end Bay

